import Mathlib

/-!
Verification of the TinyShade graph compiler and frame scheduler
(`src/TinyShade.ts`, newer revision with dependency lists; plus the
bake-time shader assembler `TinyShadeBake.assembleShader` and the
`UniformLayout` uniform packer).

The embedding below is a shallow translation of the TypeScript source:

* `Pass` mirrors the `IPass` record (`addCompute` creates one storage
  texture, `addAtomicCompute` creates none but a storage buffer,
  `addPass` creates the two ping-pong textures).  Pass identity in the
  JS `Set`/`===` comparisons is modelled by the pass's index in
  `this.passes`.
* `getRelevantPasses` mirrors `TinyShade.getRelevantPasses`, returning
  the list of pass indices in iteration order of `Array.from(new Set ...)`.
* `stageIds`/`mkEntries` mirror the header/bind-group-layout emission in
  `TinyShade.compile` (the `b++` slot counter is `mkEntries`).
* `createBindGroup` mirrors `TinyShade.createBindGroup`.
* `frameCommands` mirrors the command recording of one frame of
  `TinyShade.run`; `writeIdxOf` is `const writeIdx = this.frameCounter % 2`.
* `assembleShaderIds` mirrors the conditional header emission of
  `TinyShadeBake.assembleShader` (JS `String.prototype.includes` is the
  contiguous-substring test `strIncludes`).
* `ULState` with `addUniform`/`build`/`update`/`byteSize` mirrors
  `UniformLayout`.
-/

/-- `IPass.type` field: 'compute' or 'fragment'. -/
inductive PassType where
  | compute : PassType
  | fragment : PassType
deriving DecidableEq, Repr

/-- Shallow model of the `IPass` record of `TinyShade.ts`.
`hasTexture` is `textures.length > 0` for compute passes (true for
`addCompute`, false for `addAtomicCompute`); fragment passes always own
the two ping-pong textures.  `hasStorage` is `storageBuffer !== undefined`. -/
structure Pass where
  name : String
  type : PassType
  hasTexture : Bool
  hasStorage : Bool
  isAtomic : Bool
  dependencies : Option (List String)
deriving DecidableEq, Repr

instance : Inhabited Pass := ⟨⟨"", PassType.compute, false, false, false, none⟩⟩

/-- The `base` list of `TinyShade.getRelevantPasses`, on pass indices:
`const base = currentPass.dependencies ?
  this.passes.filter(p => currentPass.dependencies.includes(p.name)) :
  this.passes;` -/
def basePasses (passes : List Pass) (deps : Option (List String)) : List Nat :=
  match deps with
  | some ds => (List.range passes.length).filter
      (fun i => ds.contains (passes.getD i default).name)
  | none => List.range passes.length

/-- `TinyShade.getRelevantPasses`, on pass indices.  `cur = some i` means the
current stage is `this.passes[i]`; `cur = none` means the synthetic main
stage (a fresh object, never identical to an element of `this.passes`).
Mirrors:
`const resultSet = new Set(base); if (!currentPass.isMain) resultSet.add(currentPass);`
`return Array.from(resultSet)` (insertion order: base order, then the
current pass appended when it is not already an element of `base`). -/
def getRelevantPasses (passes : List Pass) (cur : Option Nat)
    (deps : Option (List String)) : List Nat :=
  match cur with
  | none => basePasses passes deps
  | some i =>
      if (basePasses passes deps).contains i then basePasses passes deps
      else basePasses passes deps ++ [i]

/-- Two example compute passes and one fragment pass used as concrete
inputs for counterexamples and witnesses. -/
def passA : Pass := ⟨"a", PassType.compute, true, false, false, none⟩

def passB : Pass := ⟨"b", PassType.compute, true, false, false, none⟩

def fragA : Pass := ⟨"a", PassType.fragment, true, false, false, none⟩

def fragAIso : Pass := ⟨"a", PassType.fragment, true, false, false, some []⟩

theorem basePasses_none (passes : List Pass) :
    basePasses passes none = List.range passes.length := rfl

theorem basePasses_some (passes : List Pass) (ds : List String) :
    basePasses passes (some ds) = (List.range passes.length).filter
      (fun i => ds.contains (passes.getD i default).name) := rfl

theorem getRelevantPasses_none (passes : List Pass) (deps : Option (List String)) :
    getRelevantPasses passes none deps = basePasses passes deps := rfl

theorem getRelevantPasses_some (passes : List Pass) (i : Nat) (deps : Option (List String)) :
    getRelevantPasses passes (some i) deps =
      if (basePasses passes deps).contains i then basePasses passes deps
      else basePasses passes deps ++ [i] := rfl

/-- The current pass is always a member of its own resolved set
(`resultSet.add(currentPass)` for non-main stages). -/
theorem self_mem_getRelevantPasses (passes : List Pass) (i : Nat)
    (deps : Option (List String)) :
    i ∈ getRelevantPasses passes (some i) deps := by
  rw [getRelevantPasses_some]
  by_cases hc : (basePasses passes deps).contains i
  · rw [if_pos hc]; simpa [List.contains, List.elem_eq_mem] using hc
  · rw [if_neg hc]; simp

/-- C5 counterexample: in a two-stage graph `[a, b]` (both declared with no
dependency list), resolving the FIRST stage returns `[0, 1]` — the whole
graph, including the stage itself and the stage declared after it — and
not the empty set that the claim requires for the first declared stage. -/
theorem c5_counterexample :
    getRelevantPasses [passA, passB] (some 0) none = [0, 1] ∧
    getRelevantPasses [passA, passB] (some 0) none ≠ ([] : List Nat) := by
  decide

/-- C5 (amended): a stage declared with no explicit dependency list
resolves to ALL stages of the graph, in original declaration order —
`this.passes` itself, which includes the stage and every stage declared
after it — and the synthetic main stage likewise resolves to all
non-terminal stages. -/
theorem c5_default_deps_resolve_to_all_passes (passes : List Pass) (i : Nat)
    (h : i < passes.length) :
    getRelevantPasses passes (some i) none = List.range passes.length ∧
    getRelevantPasses passes none none = List.range passes.length := by
  refine ⟨?_, rfl⟩
  rw [getRelevantPasses_some, basePasses_none, if_pos]
  simp [List.elem_eq_mem, List.mem_range, h]

theorem c5_default_deps_resolve_to_all_passes_witness :
    0 < [passA, passB].length ∧
    (getRelevantPasses [passA, passB] (some 0) none =
        List.range [passA, passB].length ∧
      getRelevantPasses [passA, passB] none none =
        List.range [passA, passB].length) :=
  ⟨by decide, c5_default_deps_resolve_to_all_passes [passA, passB] 0 (by decide)⟩

/-- C6 counterexample: a fragment stage `a` declared with the explicit EMPTY
dependency list resolves to `[0]` — the stage itself is added to its own
visible set — not to the empty set of "exactly the named stages and no
others". -/
theorem c6_counterexample :
    getRelevantPasses [fragAIso] (some 0) (some []) = [0] ∧
    getRelevantPasses [fragAIso] (some 0) (some []) ≠ ([] : List Nat) := by
  decide

/-- C6 (amended): with an explicit dependency list `ds`, the resolver
returns the named stages in original declaration order (not the order of
`ds`); for the terminal (main) stage that is exactly the named stages,
while every non-terminal stage additionally contains itself, appended at
the end when it is not among the named stages. -/
theorem c6_explicit_deps_resolution (passes : List Pass) (i : Nat)
    (ds : List String) (h : i < passes.length) :
    (getRelevantPasses passes none (some ds) =
      (List.range passes.length).filter
        (fun j => ds.contains (passes.getD j default).name)) ∧
    (getRelevantPasses passes (some i) (some ds) =
      (List.range passes.length).filter
        (fun j => ds.contains (passes.getD j default).name) ++
        (if ds.contains (passes.getD i default).name then [] else [i])) ∧
    (∀ j, j ∈ getRelevantPasses passes (some i) (some ds) ↔
      ((j < passes.length ∧ ds.contains (passes.getD j default).name = true) ∨
        j = i)) := by
  refine ⟨rfl, ?_, ?_⟩
  · rw [getRelevantPasses_some, basePasses_some]
    by_cases hc : ds.contains (passes.getD i default).name
    · rw [if_pos, if_pos hc]
      · simp
      · rw [List.getD_eq_getElem _ _ h] at hc
        replace hc := by simpa [List.contains, List.elem_eq_mem] using hc
        simp [List.elem_eq_mem, List.mem_filter, List.mem_range, h, hc]
    · rw [if_neg, if_neg hc]
      rw [List.getD_eq_getElem _ _ h] at hc
      replace hc := by simpa [List.contains, List.elem_eq_mem] using hc
      simp [List.elem_eq_mem, List.mem_filter, List.mem_range, h, hc]
  · intro j
    rw [getRelevantPasses_some, basePasses_some]
    by_cases hc : (((List.range passes.length).filter
        (fun k => ds.contains (passes.getD k default).name)).contains i)
    · rw [if_pos hc]
      simp only [List.mem_filter, List.mem_range]
      constructor
      · tauto
      · rintro (⟨h1, h2⟩ | rfl)
        · exact ⟨h1, h2⟩
        · simpa [List.elem_eq_mem, List.mem_filter, List.mem_range] using hc
    · rw [if_neg hc]
      simp [List.mem_filter, List.mem_range]

theorem c6_explicit_deps_resolution_witness :
    0 < [fragAIso, passB].length ∧
    ((getRelevantPasses [fragAIso, passB] none (some ["b"]) =
      (List.range [fragAIso, passB].length).filter
        (fun j => ["b"].contains (([fragAIso, passB].getD j default)).name)) ∧
    (getRelevantPasses [fragAIso, passB] (some 0) (some ["b"]) =
      (List.range [fragAIso, passB].length).filter
        (fun j => ["b"].contains (([fragAIso, passB].getD j default)).name) ++
        (if ["b"].contains (([fragAIso, passB].getD 0 default)).name then []
         else [0])) ∧
    (∀ j, j ∈ getRelevantPasses [fragAIso, passB] (some 0) (some ["b"]) ↔
      ((j < [fragAIso, passB].length ∧
          ["b"].contains (([fragAIso, passB].getD j default)).name = true) ∨
        j = 0))) :=
  ⟨by decide, c6_explicit_deps_resolution [fragAIso, passB] 0 ["b"] (by decide)⟩

/-- Resource kinds of the synthesized bind-group-layout entries of
`TinyShade.compile` (uniform buffer, sampled texture, sampler,
write-only storage texture, storage buffer). -/
inductive RKind where
  | uniform : RKind
  | sampledTex : RKind
  | sampler : RKind
  | storageTex : RKind
  | storageBuf : RKind
deriving DecidableEq, Repr

/-- One entry of the synthesized layout: slot number, the WGSL identifier
declared in the generated header at that slot, and the resource kind. -/
structure LEntry where
  binding : Nat
  ident : String
  kind : RKind
deriving DecidableEq, Repr

/-- The `b++` slot counter of `TinyShade.compile`: every
`layoutEntries.push({ binding: b++, ... })` numbers entries sequentially. -/
def mkEntries : Nat → List (String × RKind) → List LEntry
  | _, [] => []
  | b, x :: xs => ⟨b, x.1, x.2⟩ :: mkEntries (b + 1) xs

theorem mkEntries_map_binding (b : Nat) (l : List (String × RKind)) :
    (mkEntries b l).map (fun e => e.binding) = List.range' b l.length := by
  induction l generalizing b with
  | nil => rfl
  | cons x xs ih => simp [mkEntries, List.range'_succ, ih]

theorem mkEntries_map_idkind (b : Nat) (l : List (String × RKind)) :
    (mkEntries b l).map (fun e => (e.ident, e.kind)) = l := by
  induction l generalizing b with
  | nil => rfl
  | cons x xs ih => simp [mkEntries, ih]

theorem mkEntries_length (b : Nat) (l : List (String × RKind)) :
    (mkEntries b l).length = l.length := by
  induction l generalizing b with
  | nil => rfl
  | cons x xs ih => simp [mkEntries, ih]

/-- The header/layout entries `TinyShade.compile` emits for one relevant
pass `p` (`isSelf` is `currentPass === p`):
compute with a storage texture emits `outTex` for itself or `<name>` for
others; a storage buffer emits `data` for itself or `<name>_data`;
a fragment pass emits `<name>` then `prev_<name>`. -/
def perPassIds (isSelf : Bool) (p : Pass) : List (String × RKind) :=
  match p.type with
  | PassType.compute =>
      (if p.hasTexture then
        (if isSelf then [("outTex", RKind.storageTex)]
         else [(p.name, RKind.sampledTex)])
       else []) ++
      (if p.hasStorage then
        [((if isSelf then "data" else p.name ++ "_data"), RKind.storageBuf)]
       else [])
  | PassType.fragment =>
      [(p.name, RKind.sampledTex), ("prev_" ++ p.name, RKind.sampledTex)]

/-- `currentPass` of stage number `stageIdx` in `compile`/`createBindGroup`:
the synthetic main stage sits at index `passes.length`. -/
def curOf (passes : List Pass) (stageIdx : Nat) : Option Nat :=
  if stageIdx == passes.length then none else some stageIdx

/-- The dependency list `getRelevantPasses` consults for stage `stageIdx`
(`this._mainDeps` for the main stage). -/
def depsOf (passes : List Pass) (mainDeps : Option (List String))
    (stageIdx : Nat) : Option (List String) :=
  if stageIdx == passes.length then mainDeps
  else (passes.getD stageIdx default).dependencies

/-- The ordered (identifier, kind) list of the header/layout that
`TinyShade.compile` synthesizes for one stage: the uniform struct binding
`u`, the global textures, the shared sampler `samp`, then the resources of
every relevant pass. -/
def stageIds (gts : List String) (passes : List Pass) (cur : Option Nat)
    (deps : Option (List String)) : List (String × RKind) :=
  ("u", RKind.uniform) :: (gts.map (fun n => (n, RKind.sampledTex))) ++
    [("samp", RKind.sampler)] ++
    ((getRelevantPasses passes cur deps).flatMap
      (fun i => perPassIds (cur == some i) (passes.getD i default)))

/-- The full synthesized binding layout of stage `stageIdx`
(slot-numbered by the `b++` counter). -/
def compileLayout (gts : List String) (passes : List Pass)
    (mainDeps : Option (List String)) (stageIdx : Nat) : List LEntry :=
  mkEntries 0
    (stageIds gts passes (curOf passes stageIdx) (depsOf passes mainDeps stageIdx))

/-- C7 counterexample: two compute stages `a`, `b` (declared in that order,
no dependency lists, no global textures).  Stage `a`'s layout is
`[u@0, samp@1, outTex@2, b@3]`: the stage's own output resource `outTex`
occupies slot 2 and the LAST entry is the other stage's texture `b`, so
"the stage's own output resource last" is false. -/
theorem c7_counterexample :
    compileLayout [] [passA, passB] none 0 =
      [⟨0, "u", RKind.uniform⟩, ⟨1, "samp", RKind.sampler⟩,
       ⟨2, "outTex", RKind.storageTex⟩, ⟨3, "b", RKind.sampledTex⟩] ∧
    ((compileLayout [] [passA, passB] none 0).getLast?.map (fun e => e.ident) =
      some "b") ∧
    ("b" : String) ≠ "outTex" := by decide

/-- C7 (amended): for every compiled stage the layout's slot numbers are the
contiguous run 0,1,2,... with no gaps or repeats; slot 0 is the shared
uniform buffer `u`; and the order thereafter is global textures, the
shared sampler `samp`, then the resources of the relevant passes in the
resolver's order.  (The stage's own output resource is last only when the
resolver places the stage last; with implicit dependencies it sits at the
stage's declaration position, see `c7_counterexample`.) -/
theorem c7_layout_contiguous_ordered (gts : List String) (passes : List Pass)
    (mainDeps : Option (List String)) (stageIdx : Nat) :
    ((compileLayout gts passes mainDeps stageIdx).map (fun e => e.binding) =
      List.range (compileLayout gts passes mainDeps stageIdx).length) ∧
    ((compileLayout gts passes mainDeps stageIdx)[0]? =
      some ⟨0, "u", RKind.uniform⟩) ∧
    ((compileLayout gts passes mainDeps stageIdx).map (fun e => (e.ident, e.kind)) =
      ("u", RKind.uniform) :: (gts.map (fun n => (n, RKind.sampledTex))) ++
        [("samp", RKind.sampler)] ++
        ((getRelevantPasses passes (curOf passes stageIdx)
            (depsOf passes mainDeps stageIdx)).flatMap
          (fun i => perPassIds ((curOf passes stageIdx) == some i)
            (passes.getD i default)))) := by
  refine ⟨?_, ?_, ?_⟩
  · rw [compileLayout, mkEntries_map_binding, mkEntries_length, List.range_eq_range']
  · rw [compileLayout, stageIds]
    simp [mkEntries, List.cons_append]
  · rw [compileLayout, mkEntries_map_idkind, stageIds]

/-- The concrete resource a bind-group entry of `TinyShade.createBindGroup`
resolves to: the shared uniform buffer, a global texture view, the shared
sampler, a compute pass's single storage-texture view `p.textures[0]`, a
pass's storage buffer, or a view of slot `s` of a fragment pass's
ping-pong texture pair `p.textures[s]`. -/
inductive Bound where
  | uniform : Bound
  | globalTex : String → Bound
  | sampler : Bound
  | computeTex : Nat → Bound
  | storageBuffer : Nat → Bound
  | fragSlot : Nat → Nat → Bound
deriving DecidableEq, Repr

/-- The bind-group entries `TinyShade.createBindGroup` pushes for one
relevant pass `p` (`isSelf` is `currentPass === p`): a compute pass
contributes its texture view and/or storage buffer; a fragment pass
contributes two ping-pong views — `p.textures[readIdx]` twice when the
pass is the stage itself, and `p.textures[writeIdx]`, `p.textures[readIdx]`
otherwise (`readIdx = 1 - writeIdx`). -/
def perPassBound (isSelf : Bool) (i : Nat) (p : Pass) (writeIdx : Nat) : List Bound :=
  match p.type with
  | PassType.compute =>
      (if p.hasTexture then [Bound.computeTex i] else []) ++
      (if p.hasStorage then [Bound.storageBuffer i] else [])
  | PassType.fragment =>
      if isSelf then
        [Bound.fragSlot i (1 - writeIdx), Bound.fragSlot i (1 - writeIdx)]
      else
        [Bound.fragSlot i writeIdx, Bound.fragSlot i (1 - writeIdx)]

/-- `TinyShade.createBindGroup(stageIdx, writeIdx)`: the ordered list of
resolved resources — uniform buffer, global texture views, the shared
sampler, then the per-pass entries of every relevant pass.  Entry `k` of
this list is bound at slot `k`, in lockstep with `stageIds`/`compileLayout`
(same iteration structure, same conditionals). -/
def createBindGroup (gts : List String) (passes : List Pass)
    (mainDeps : Option (List String)) (stageIdx writeIdx : Nat) : List Bound :=
  Bound.uniform :: (gts.map Bound.globalTex) ++ [Bound.sampler] ++
    ((getRelevantPasses passes (curOf passes stageIdx)
        (depsOf passes mainDeps stageIdx)).flatMap
      (fun i => perPassBound ((curOf passes stageIdx) == some i) i
        (passes.getD i default) writeIdx))

/-- `compile` and `createBindGroup` push the same number of entries for
each relevant pass, so layout slots and bind-group entries stay aligned. -/
theorem perPass_length_eq (isSelf : Bool) (i : Nat) (p : Pass) (w : Nat) :
    (perPassIds isSelf p).length = (perPassBound isSelf i p w).length := by
  cases p with
  | mk name ptype htex hsto hat deps =>
    cases ptype <;> simp only [perPassIds, perPassBound] <;>
      cases isSelf <;> cases htex <;> cases hsto <;> simp

theorem perPassIds_fragment (isSelf : Bool) (p : Pass)
    (hp : p.type = PassType.fragment) :
    perPassIds isSelf p =
      [(p.name, RKind.sampledTex), ("prev_" ++ p.name, RKind.sampledTex)] := by
  cases p with
  | mk n t a b c d =>
    simp only at hp
    subst hp
    rfl

theorem perPassBound_fragment (isSelf : Bool) (i : Nat) (p : Pass) (w : Nat)
    (hp : p.type = PassType.fragment) :
    perPassBound isSelf i p w =
      [Bound.fragSlot i (if isSelf then 1 - w else w),
       Bound.fragSlot i (1 - w)] := by
  cases p with
  | mk n t a b c d =>
    simp only at hp
    subst hp
    cases isSelf <;> rfl

theorem getElem?_append_pair {α : Type} (A : List α) (x y : α) (S : List α)
    (k : Nat) (hk : A.length = k) :
    ((A ++ [x, y]) ++ S)[k]? = some x ∧ ((A ++ [x, y]) ++ S)[k + 1]? = some y := by
  subst hk
  rw [List.append_assoc]
  constructor
  · rw [List.getElem?_append_right (le_refl _)]
    simp
  · rw [List.getElem?_append_right (by omega)]
    have h1 : A.length + 1 - A.length = 1 := by omega
    rw [h1]
    simp

theorem flatMap_perPass_length (passes : List Pass) (cur : Option Nat)
    (w : Nat) (l : List Nat) :
    (l.flatMap (fun j => perPassIds (cur == some j) (passes.getD j default))).length =
    (l.flatMap (fun j => perPassBound (cur == some j) j
      (passes.getD j default) w)).length := by
  induction l with
  | nil => rfl
  | cons a l ih =>
      simp only [List.flatMap_cons, List.length_append, ih]
      rw [perPass_length_eq (cur == some a) a (passes.getD a default) w]

/-- Positional correspondence for a fragment pass `i` relevant to the stage
`stageIdx` being built: at some slot `k` the synthesized header declares
`<name>` with `prev_<name>` at slot `k+1`, and the bind group binds, at
those same slots, the view of slot `readIdx` twice when the pass is the
stage itself, and the views of `writeIdx` then `readIdx` otherwise. -/
theorem frag_pair_positions (gts : List String) (passes : List Pass)
    (mainDeps : Option (List String)) (stageIdx w i : Nat)
    (hmem : i ∈ getRelevantPasses passes (curOf passes stageIdx)
      (depsOf passes mainDeps stageIdx))
    (hf : (passes.getD i default).type = PassType.fragment) :
    ∃ k,
      (stageIds gts passes (curOf passes stageIdx)
        (depsOf passes mainDeps stageIdx))[k]? =
          some ((passes.getD i default).name, RKind.sampledTex) ∧
      (stageIds gts passes (curOf passes stageIdx)
        (depsOf passes mainDeps stageIdx))[k + 1]? =
          some ("prev_" ++ (passes.getD i default).name, RKind.sampledTex) ∧
      (createBindGroup gts passes mainDeps stageIdx w)[k]? =
          some (Bound.fragSlot i
            (if curOf passes stageIdx == some i then 1 - w else w)) ∧
      (createBindGroup gts passes mainDeps stageIdx w)[k + 1]? =
          some (Bound.fragSlot i (1 - w)) := by
  obtain ⟨pre, suf, hsplit⟩ := List.append_of_mem hmem
  have hlen := flatMap_perPass_length passes (curOf passes stageIdx) w pre
  refine ⟨gts.length + 2 + (pre.flatMap
    (fun j => perPassIds ((curOf passes stageIdx) == some j)
      (passes.getD j default))).length, ?_, ?_, ?_, ?_⟩
  · rw [stageIds, hsplit, List.flatMap_append, List.flatMap_cons,
      perPassIds_fragment _ _ hf, ← List.singleton_append,
      ← List.append_assoc, ← List.append_assoc]
    refine (getElem?_append_pair _ _ _ _ _ ?_).1
    simp only [List.length_append, List.length_cons, List.length_map, List.length_nil]
    omega
  · rw [stageIds, hsplit, List.flatMap_append, List.flatMap_cons,
      perPassIds_fragment _ _ hf, ← List.singleton_append,
      ← List.append_assoc, ← List.append_assoc]
    refine (getElem?_append_pair _ _ _ _ _ ?_).2
    simp only [List.length_append, List.length_cons, List.length_map, List.length_nil]
    omega
  · rw [createBindGroup, hsplit, List.flatMap_append, List.flatMap_cons,
      perPassBound_fragment _ _ _ _ hf, ← List.singleton_append,
      ← List.append_assoc, ← List.append_assoc]
    refine (getElem?_append_pair _ _ _ _ _ ?_).1
    simp only [List.length_append, List.length_cons, List.length_map, List.length_nil]
    rw [← hlen]
    omega
  · rw [createBindGroup, hsplit, List.flatMap_append, List.flatMap_cons,
      perPassBound_fragment _ _ _ _ hf, ← List.singleton_append,
      ← List.append_assoc, ← List.append_assoc]
    refine (getElem?_append_pair _ _ _ _ _ ?_).2
    simp only [List.length_append, List.length_cons, List.length_map, List.length_nil]
    rw [← hlen]
    omega

/-- C3 counterexample: one fragment stage `a`, own bind group at
`writeIdx = 0`.  The synthesized layout is `[u, samp, a, prev_a]` and the
bind group resolves BOTH slot 2 (`a`, the stage's main output identifier)
and slot 3 (`prev_a`) to the view of physical slot 1 — the read slot —
so the main output identifier does not resolve to the write slot 0 and
the two roles resolve to the SAME physical slot, not different ones. -/
theorem c3_counterexample :
    (stageIds [] [fragA] (curOf [fragA] 0) (depsOf [fragA] none 0)).map
      Prod.fst = ["u", "samp", "a", "prev_a"] ∧
    createBindGroup [] [fragA] none 0 0 =
      [Bound.uniform, Bound.sampler, Bound.fragSlot 0 1, Bound.fragSlot 0 1] ∧
    (createBindGroup [] [fragA] none 0 0)[2]? = some (Bound.fragSlot 0 1) ∧
    (createBindGroup [] [fragA] none 0 0)[3]? = some (Bound.fragSlot 0 1) ∧
    Bound.fragSlot 0 1 ≠ Bound.fragSlot 0 0 := by decide

/-- C3 (amended): when a fragment stage's own bind group is built, the entry
for its main output identifier `<name>` and the entry for `prev_<name>`
BOTH resolve to the read slot `1 - writeIdx` (the write slot is the render
attachment of the pass, never a bind-group entry of the stage itself);
the read slot differs from the write slot; and it is only in ANOTHER
stage's bind group (`isSelf = false`) that the pair `<name>`, `prev_<name>`
resolves to the write slot then the read slot. -/
theorem c3_self_bindgroup_reads_read_slot (gts : List String)
    (passes : List Pass) (mainDeps : Option (List String)) (i w : Nat)
    (hi : i < passes.length)
    (hf : (passes.getD i default).type = PassType.fragment)
    (hw : w ≤ 1) :
    (∃ k,
      (stageIds gts passes (curOf passes i) (depsOf passes mainDeps i))[k]? =
        some ((passes.getD i default).name, RKind.sampledTex) ∧
      (stageIds gts passes (curOf passes i) (depsOf passes mainDeps i))[k + 1]? =
        some ("prev_" ++ (passes.getD i default).name, RKind.sampledTex) ∧
      (createBindGroup gts passes mainDeps i w)[k]? =
        some (Bound.fragSlot i (1 - w)) ∧
      (createBindGroup gts passes mainDeps i w)[k + 1]? =
        some (Bound.fragSlot i (1 - w))) ∧
    1 - w ≠ w ∧
    perPassBound false i (passes.getD i default) w =
      [Bound.fragSlot i w, Bound.fragSlot i (1 - w)] := by
  have hcur : curOf passes i = some i := by
    unfold curOf
    rw [if_neg]
    simp [Nat.ne_of_lt hi]
  refine ⟨?_, ?_, perPassBound_fragment _ _ _ _ hf⟩
  · have hmem : i ∈ getRelevantPasses passes (curOf passes i)
        (depsOf passes mainDeps i) := by
      rw [hcur]
      exact self_mem_getRelevantPasses passes i _
    have hpos := frag_pair_positions gts passes mainDeps i w i hmem hf
    rw [hcur] at hpos
    rw [hcur]
    simpa using hpos
  · omega

theorem c3_self_bindgroup_reads_read_slot_witness :
    (0 < [fragA].length ∧
      (([fragA].getD 0 default)).type = PassType.fragment ∧ (0 : Nat) ≤ 1) ∧
    ((∃ k,
      (stageIds [] [fragA] (curOf [fragA] 0) (depsOf [fragA] none 0))[k]? =
        some ((([fragA].getD 0 default)).name, RKind.sampledTex) ∧
      (stageIds [] [fragA] (curOf [fragA] 0) (depsOf [fragA] none 0))[k + 1]? =
        some ("prev_" ++ (([fragA].getD 0 default)).name, RKind.sampledTex) ∧
      (createBindGroup [] [fragA] none 0 0)[k]? =
        some (Bound.fragSlot 0 (1 - 0)) ∧
      (createBindGroup [] [fragA] none 0 0)[k + 1]? =
        some (Bound.fragSlot 0 (1 - 0))) ∧
    1 - 0 ≠ 0 ∧
    perPassBound false 0 ([fragA].getD 0 default) 0 =
      [Bound.fragSlot 0 0, Bound.fragSlot 0 (1 - 0)]) :=
  ⟨⟨by decide, by decide, by decide⟩,
    c3_self_bindgroup_reads_read_slot [] [fragA] none 0 0
      (by decide) (by decide) (by decide)⟩

/-- `const writeIdx = (this.frameCounter % 2)` in `TinyShade.run`. -/
def writeIdxOf (frameCounter : Nat) : Nat := frameCounter % 2

/-- `const readIdx = 1 - writeIdx` in `TinyShade.createBindGroup`. -/
def readIdxOf (frameCounter : Nat) : Nat := 1 - writeIdxOf frameCounter

/-- One executed frame of `TinyShade.run`, restricted to the two ping-pong
slot contents of a single self-feedback fragment stage: the stage samples
`prev_<name>`, which its own bind group binds to slot
`readIdx = 1 - writeIdx` (see `frag_pair_positions`), computes some
function `shader` of it, and the render pass stores the result into the
attachment `p.textures[writeIdx]`; the other slot's content is untouched
(no other writer touches this surface). -/
def fragFrame {α : Type} (shader : α → α) (c : Nat) (slots : Nat → α) :
    Nat → α :=
  fun j => if j = writeIdxOf c then shader (slots (readIdxOf c)) else slots j

/-- `n` executed frames of the loop starting at `frameCounter = c`;
`this.frameCounter++` exactly once per executed frame. -/
def runFrames {α : Type} (shader : α → α) : Nat → Nat → (Nat → α) → Nat → α
  | _, 0, slots => slots
  | c, n + 1, slots => runFrames shader (c + 1) n (fragFrame shader c slots)

theorem runFrames_zero {α : Type} (shader : α → α) (c : Nat) (slots : Nat → α) :
    runFrames shader c 0 slots = slots := rfl

theorem runFrames_step {α : Type} (shader : α → α) (c n : Nat)
    (slots : Nat → α) :
    runFrames shader c (n + 1) slots =
      runFrames shader (c + 1) n (fragFrame shader c slots) := rfl

/-- Unrolling the last frame: frame number `c + n` acts on the state the
first `n` frames produced. -/
theorem runFrames_succ_last {α : Type} (shader : α → α) (c n : Nat)
    (slots : Nat → α) :
    runFrames shader c (n + 1) slots =
      fragFrame shader (c + n) (runFrames shader c n slots) := by
  induction n generalizing c slots with
  | zero => rfl
  | succ n ih =>
      rw [runFrames_step, ih, runFrames_step]
      have h1 : c + 1 + n = c + (n + 1) := by omega
      rw [h1]

/-- The read index of the next frame is the write index of this frame. -/
theorem readIdxOf_succ (m : Nat) : readIdxOf (m + 1) = writeIdxOf m := by
  rcases Nat.mod_two_eq_zero_or_one m with h | h <;>
    simp [readIdxOf, writeIdxOf, Nat.add_mod, h]

/-- C2: the slot that a self-feedback fragment stage's bind group binds for
`prev_<name>` at frame `f+1` is exactly the write-target slot of frame `f`
(first two conjuncts), and therefore the value read through that
identifier at frame `f+1` is exactly the value the stage wrote at frame
`f` — a one-frame round trip through the ping-pong pair (last conjunct),
assuming no other writer touches the surface. -/
theorem c2_self_feedback_roundtrip {α : Type} (gts : List String)
    (passes : List Pass) (mainDeps : Option (List String)) (i : Nat)
    (hi : i < passes.length)
    (hf : (passes.getD i default).type = PassType.fragment)
    (shader : α → α) (c n : Nat) (slots : Nat → α) :
    readIdxOf (c + 1) = writeIdxOf c ∧
    (∃ k : Nat,
      (stageIds gts passes (curOf passes i) (depsOf passes mainDeps i))[k]? =
        some ("prev_" ++ (passes.getD i default).name, RKind.sampledTex) ∧
      (createBindGroup gts passes mainDeps i (writeIdxOf (c + 1)))[k]? =
        some (Bound.fragSlot i (writeIdxOf c))) ∧
    runFrames shader c (n + 1) slots (readIdxOf (c + n + 1)) =
      shader (runFrames shader c n slots (readIdxOf (c + n))) := by
  have heq : 1 - writeIdxOf (c + 1) = writeIdxOf c := readIdxOf_succ c
  refine ⟨readIdxOf_succ c, ?_, ?_⟩
  · have hcur : curOf passes i = some i := by
      unfold curOf
      rw [if_neg]
      simp [Nat.ne_of_lt hi]
    have hmem : i ∈ getRelevantPasses passes (curOf passes i)
        (depsOf passes mainDeps i) := by
      rw [hcur]
      exact self_mem_getRelevantPasses passes i _
    obtain ⟨k, _, h2, _, h4⟩ :=
      frag_pair_positions gts passes mainDeps i (writeIdxOf (c + 1)) i hmem hf
    refine ⟨k + 1, h2, ?_⟩
    simpa only [heq] using h4
  · rw [runFrames_succ_last, readIdxOf_succ (c + n)]
    simp [fragFrame]

theorem c2_self_feedback_roundtrip_witness :
    (0 < [fragA].length ∧
      (([fragA].getD 0 default)).type = PassType.fragment) ∧
    (readIdxOf (0 + 1) = writeIdxOf 0 ∧
    (∃ k : Nat,
      (stageIds [] [fragA] (curOf [fragA] 0) (depsOf [fragA] none 0))[k]? =
        some ("prev_" ++ (([fragA].getD 0 default)).name, RKind.sampledTex) ∧
      (createBindGroup [] [fragA] none 0 (writeIdxOf (0 + 1)))[k]? =
        some (Bound.fragSlot 0 (writeIdxOf 0))) ∧
    runFrames Nat.succ 0 (0 + 1) (fun _ => 0) (readIdxOf (0 + 0 + 1)) =
      Nat.succ (runFrames Nat.succ 0 0 (fun _ => 0) (readIdxOf (0 + 0)))) :=
  ⟨⟨by decide, by decide⟩,
    c2_self_feedback_roundtrip [] [fragA] none 0 (by decide) (by decide)
      Nat.succ 0 0 (fun _ => 0)⟩

/-- One command of the per-frame command encoder of `TinyShade.run`:
`enc.clearBuffer(p.storageBuffer)`, a compute dispatch for pass `i`, a
fragment draw for pass `i` targeting ping-pong slot `target`
(`view: p.textures[writeIdx]`), or the final main-pass draw to the
canvas surface. -/
inductive Cmd where
  | clearBuf : Nat → Cmd
  | dispatch : Nat → Cmd
  | draw : Nat → Nat → Cmd
  | drawMain : Cmd
deriving DecidableEq, Repr

/-- The commands `TinyShade.run` records for pass `i` of one frame:
`if (p.isAtomic && p.storageBuffer) enc.clearBuffer(p.storageBuffer);`
then either the compute dispatch or the render pass draw targeting
`p.textures[writeIdx]`. -/
def passCmds (writeIdx i : Nat) (p : Pass) : List Cmd :=
  (if p.isAtomic && p.hasStorage then [Cmd.clearBuf i] else []) ++
  (match p.type with
   | PassType.compute => [Cmd.dispatch i]
   | PassType.fragment => [Cmd.draw i writeIdx])

/-- The full command sequence of one frame executed at
`frameCounter = c`: every pass in declared order, then the main draw. -/
def frameCommands (passes : List Pass) (c : Nat) : List Cmd :=
  ((List.range passes.length).flatMap
    (fun i => passCmds (writeIdxOf c) i (passes.getD i default))) ++
    [Cmd.drawMain]

/-- `this.frameCounter` after `f` executed frames: starts at 0 and is
incremented exactly once per executed frame (`this.frameCounter++`). -/
def frameCounterAfter : Nat → Nat
  | 0 => 0
  | f + 1 => frameCounterAfter f + 1

/-- The target slot of the first draw recorded for pass `i` in a command
sequence. -/
def drawTargetOf : List Cmd → Nat → Option Nat
  | [], _ => none
  | Cmd.draw j t :: rest, i => if j = i then some t else drawTargetOf rest i
  | Cmd.clearBuf _ :: rest, i => drawTargetOf rest i
  | Cmd.dispatch _ :: rest, i => drawTargetOf rest i
  | Cmd.drawMain :: rest, i => drawTargetOf rest i

/-- The physical ping-pong slot pass `i` renders into at executed
frame `f`. -/
def writeSlotAt (passes : List Pass) (f i : Nat) : Option Nat :=
  drawTargetOf (frameCommands passes (frameCounterAfter f)) i

theorem range_split (i n : Nat) (h : i < n) :
    ∃ tail : List Nat, List.range n = List.range i ++ i :: tail ∧
      ∀ j ∈ tail, i < j := by
  obtain ⟨m, rfl⟩ : ∃ m, n = i + (m + 1) := ⟨n - i - 1, by omega⟩
  refine ⟨(List.range m).map (fun x => i + Nat.succ x), ?_, ?_⟩
  · rw [List.range_add, List.range_succ_eq_map]
    simp
  · intro j hj
    simp only [List.mem_map] at hj
    obtain ⟨x, _, rfl⟩ := hj
    omega

theorem drawTargetOf_append_none (A B : List Cmd) (i : Nat)
    (h : drawTargetOf A i = none) :
    drawTargetOf (A ++ B) i = drawTargetOf B i := by
  induction A with
  | nil => rfl
  | cons c rest ih =>
      cases c with
      | draw j t =>
          rw [drawTargetOf] at h
          by_cases hj : j = i
          · rw [if_pos hj] at h; exact absurd h (by simp)
          · rw [if_neg hj] at h
            rw [List.cons_append, drawTargetOf, if_neg hj]
            exact ih h
      | clearBuf j =>
          rw [drawTargetOf] at h
          rw [List.cons_append, drawTargetOf]
          exact ih h
      | dispatch j =>
          rw [drawTargetOf] at h
          rw [List.cons_append, drawTargetOf]
          exact ih h
      | drawMain =>
          rw [drawTargetOf] at h
          rw [List.cons_append, drawTargetOf]
          exact ih h

theorem drawTargetOf_passCmds_other (w j : Nat) (p : Pass) (i : Nat)
    (hne : j ≠ i) :
    drawTargetOf (passCmds w j p) i = none := by
  rw [passCmds]
  cases hA : p.isAtomic && p.hasStorage <;>
    cases hT : p.type <;>
      simp [drawTargetOf, hne]

theorem drawTargetOf_flatMap_none (w : Nat) (passes : List Pass)
    (l : List Nat) (i : Nat) (h : ∀ j ∈ l, j ≠ i) :
    drawTargetOf (l.flatMap (fun j => passCmds w j (passes.getD j default))) i
      = none := by
  induction l with
  | nil => rfl
  | cons a rest ih =>
      rw [List.flatMap_cons]
      rw [drawTargetOf_append_none _ _ _
        (drawTargetOf_passCmds_other _ _ _ _ (h a (by simp)))]
      exact ih (fun j hj => h j (by simp [hj]))

theorem drawTargetOf_append_some (A B : List Cmd) (i t : Nat)
    (h : drawTargetOf A i = some t) :
    drawTargetOf (A ++ B) i = some t := by
  induction A with
  | nil => exact absurd h (by simp [drawTargetOf])
  | cons c rest ih =>
      cases c with
      | draw j u =>
          rw [drawTargetOf] at h
          by_cases hj : j = i
          · rw [if_pos hj] at h
            rw [List.cons_append, drawTargetOf, if_pos hj]
            exact h
          · rw [if_neg hj] at h
            rw [List.cons_append, drawTargetOf, if_neg hj]
            exact ih h
      | clearBuf j =>
          rw [drawTargetOf] at h
          rw [List.cons_append, drawTargetOf]
          exact ih h
      | dispatch j =>
          rw [drawTargetOf] at h
          rw [List.cons_append, drawTargetOf]
          exact ih h
      | drawMain =>
          rw [drawTargetOf] at h
          rw [List.cons_append, drawTargetOf]
          exact ih h

theorem drawTargetOf_frame (passes : List Pass) (c i : Nat)
    (hi : i < passes.length)
    (hf : (passes.getD i default).type = PassType.fragment) :
    drawTargetOf (frameCommands passes c) i = some (writeIdxOf c) := by
  obtain ⟨tail, hsp, htail⟩ := range_split i passes.length hi
  rw [frameCommands, hsp, List.flatMap_append, List.flatMap_cons,
    List.append_assoc, List.append_assoc]
  rw [drawTargetOf_append_none _ _ _
    (drawTargetOf_flatMap_none _ _ _ _ (fun j hj => by
      simp only [List.mem_range] at hj; omega))]
  have hself : drawTargetOf (passCmds (writeIdxOf c) i (passes.getD i default)) i
      = some (writeIdxOf c) := by
    rw [passCmds]
    cases hA : (passes.getD i default).isAtomic &&
        (passes.getD i default).hasStorage <;>
      rw [hf] <;> simp [drawTargetOf]
  exact drawTargetOf_append_some _ _ _ _ hself

/-- C1: for every fragment stage, the slot rendered to at executed frame
`f` is `frameCounter mod 2` with the counter incremented exactly once per
frame; consequently the write slot at frame `f` is never the write slot
at frame `f+1` and equals the write slot at frame `f+2`. -/
theorem c1_write_slot_alternates (passes : List Pass) (f i : Nat)
    (hi : i < passes.length)
    (hf : (passes.getD i default).type = PassType.fragment) :
    writeSlotAt passes f i = some (writeIdxOf (frameCounterAfter f)) ∧
    writeSlotAt passes f i ≠ writeSlotAt passes (f + 1) i ∧
    writeSlotAt passes f i = writeSlotAt passes (f + 2) i := by
  have h0 := drawTargetOf_frame passes (frameCounterAfter f) i hi hf
  have h1 := drawTargetOf_frame passes (frameCounterAfter (f + 1)) i hi hf
  have h2 := drawTargetOf_frame passes (frameCounterAfter (f + 2)) i hi hf
  have e1 : frameCounterAfter (f + 1) = frameCounterAfter f + 1 := rfl
  have e2 : frameCounterAfter (f + 2) = frameCounterAfter f + 2 := rfl
  refine ⟨h0, ?_, ?_⟩
  · rw [writeSlotAt, writeSlotAt, h0, h1, e1]
    intro hcon
    have := Option.some.inj hcon
    unfold writeIdxOf at this
    omega
  · rw [writeSlotAt, writeSlotAt, h0, h2, e2]
    have : writeIdxOf (frameCounterAfter f) =
        writeIdxOf (frameCounterAfter f + 2) := by
      unfold writeIdxOf
      omega
    rw [this]

/-- Effect of one recorded command on the storage-buffer contents
(`bufs p e` = element `e` of pass `p`'s buffer): `clearBuffer` zeroes the
pass's whole buffer; what a dispatch or a draw writes is shader-dependent
and therefore an arbitrary parameter `eff`. -/
def execCmd (eff : Cmd → (Nat → Nat → Nat) → (Nat → Nat → Nat)) :
    Cmd → (Nat → Nat → Nat) → (Nat → Nat → Nat)
  | Cmd.clearBuf j, bufs => fun p e => if p = j then 0 else bufs p e
  | Cmd.dispatch j, bufs => eff (Cmd.dispatch j) bufs
  | Cmd.draw j t, bufs => eff (Cmd.draw j t) bufs
  | Cmd.drawMain, bufs => eff Cmd.drawMain bufs

def execList (eff : Cmd → (Nat → Nat → Nat) → (Nat → Nat → Nat)) :
    List Cmd → (Nat → Nat → Nat) → (Nat → Nat → Nat)
  | [], bufs => bufs
  | c :: rest, bufs => execList eff rest (execCmd eff c bufs)

/-- Scan a command sequence in order, applying effects; return the buffer
state at the moment the dispatch of pass `i` begins. -/
def bufsAtDispatch (eff : Cmd → (Nat → Nat → Nat) → (Nat → Nat → Nat))
    (i : Nat) : List Cmd → (Nat → Nat → Nat) → Option (Nat → Nat → Nat)
  | [], _ => none
  | Cmd.clearBuf j :: rest, bufs =>
      bufsAtDispatch eff i rest (execCmd eff (Cmd.clearBuf j) bufs)
  | Cmd.dispatch j :: rest, bufs =>
      if j = i then some bufs
      else bufsAtDispatch eff i rest (execCmd eff (Cmd.dispatch j) bufs)
  | Cmd.draw j t :: rest, bufs =>
      bufsAtDispatch eff i rest (execCmd eff (Cmd.draw j t) bufs)
  | Cmd.drawMain :: rest, bufs =>
      bufsAtDispatch eff i rest (execCmd eff Cmd.drawMain bufs)

theorem dispatch_mem_passCmds (w j : Nat) (p : Pass) (i : Nat)
    (h : Cmd.dispatch i ∈ passCmds w j p) : j = i := by
  rw [passCmds] at h
  rcases List.mem_append.mp h with h1 | h1
  · cases hA : p.isAtomic && p.hasStorage <;> rw [hA] at h1 <;> simp at h1
  · cases hT : p.type <;> rw [hT] at h1 <;> simp at h1
    exact h1.symm

theorem clearBuf_mem_passCmds (w j : Nat) (p : Pass) (x : Nat)
    (h : Cmd.clearBuf x ∈ passCmds w j p) :
    x = j ∧ (p.isAtomic && p.hasStorage) = true := by
  rw [passCmds] at h
  rcases List.mem_append.mp h with h1 | h1
  · cases hA : p.isAtomic && p.hasStorage <;> rw [hA] at h1 <;> simp at h1
    exact ⟨h1, rfl⟩
  · cases hT : p.type <;> rw [hT] at h1 <;> simp at h1

theorem bufsAtDispatch_append (eff : Cmd → (Nat → Nat → Nat) → (Nat → Nat → Nat))
    (i : Nat) (A B : List Cmd) (bufs : Nat → Nat → Nat)
    (h : Cmd.dispatch i ∉ A) :
    bufsAtDispatch eff i (A ++ B) bufs =
      bufsAtDispatch eff i B (execList eff A bufs) := by
  induction A generalizing bufs with
  | nil => rfl
  | cons c rest ih =>
      have hrest : Cmd.dispatch i ∉ rest := fun hx => h (by simp [hx])
      cases c with
      | clearBuf j =>
          rw [List.cons_append, bufsAtDispatch, execList]
          exact ih _ hrest
      | dispatch j =>
          have hj : j ≠ i := fun hx => h (by simp [hx])
          rw [List.cons_append, bufsAtDispatch, if_neg hj, execList]
          exact ih _ hrest
      | draw j t =>
          rw [List.cons_append, bufsAtDispatch, execList]
          exact ih _ hrest
      | drawMain =>
          rw [List.cons_append, bufsAtDispatch, execList]
          exact ih _ hrest

/-- C9 part 1 core: scanning one frame's commands, the buffer state seen at
the start of an atomic pass's dispatch has that pass's buffer all-zero,
whatever the initial buffer contents and whatever earlier dispatches and
draws wrote. -/
theorem c9_core (passes : List Pass) (i c : Nat)
    (hi : i < passes.length)
    (hc : (passes.getD i default).type = PassType.compute)
    (ha : (passes.getD i default).isAtomic = true)
    (hs : (passes.getD i default).hasStorage = true)
    (eff : Cmd → (Nat → Nat → Nat) → (Nat → Nat → Nat))
    (bufs : Nat → Nat → Nat) :
    ∃ bm, bufsAtDispatch eff i (frameCommands passes c) bufs = some bm ∧
      ∀ e, bm i e = 0 := by
  obtain ⟨tail, hsp, htail⟩ := range_split i passes.length hi
  rw [frameCommands, hsp, List.flatMap_append, List.flatMap_cons,
    List.append_assoc, List.append_assoc]
  rw [bufsAtDispatch_append _ _ _ _ _ (fun hmem => by
    obtain ⟨j, hj, hmem2⟩ := List.mem_flatMap.mp hmem
    simp only [List.mem_range] at hj
    have := dispatch_mem_passCmds _ _ _ _ hmem2
    omega)]
  rw [passCmds, ha, hs, hc]
  simp only [Bool.and_self, if_pos, List.cons_append, List.nil_append]
  rw [bufsAtDispatch, bufsAtDispatch, if_pos rfl]
  exact ⟨_, rfl, fun e => by simp [execCmd]⟩

/-- C9 part 2 core: no clear command is ever recorded for a pass that is
not atomic (or has no storage buffer). -/
theorem c9_no_clear (passes : List Pass) (j c : Nat)
    (hna : ((passes.getD j default).isAtomic &&
      (passes.getD j default).hasStorage) = false) :
    Cmd.clearBuf j ∉ frameCommands passes c := by
  intro hmem
  rw [frameCommands] at hmem
  rcases List.mem_append.mp hmem with h1 | h1
  · obtain ⟨j', hj', hmem2⟩ := List.mem_flatMap.mp h1
    obtain ⟨rfl, hAt⟩ := clearBuf_mem_passCmds _ _ _ _ hmem2
    rw [hna] at hAt
    exact absurd hAt (by simp)
  · simp at h1

/-- An atomic compute pass and a plain (non-atomic) compute pass with a
storage buffer, as created by `addAtomicCompute` / `addCompute(size>0)`. -/
def atomicA : Pass := ⟨"a", PassType.compute, false, true, true, none⟩

def plainB : Pass := ⟨"b", PassType.compute, true, true, false, none⟩

/-- C9: on every frame, an atomic pass's storage buffer is cleared to zero
by a command recorded immediately before that pass's dispatch, so the
buffer contents at the start of the dispatch are all-zero regardless of
the initial buffer state and of whatever earlier dispatches/draws wrote;
and no clear command is ever recorded for a pass that is not atomic
(plain linear buffers are never implicitly cleared). -/
theorem c9_atomic_autoclear (passes : List Pass) (i c : Nat)
    (hi : i < passes.length)
    (hc : (passes.getD i default).type = PassType.compute)
    (ha : (passes.getD i default).isAtomic = true)
    (hs : (passes.getD i default).hasStorage = true) :
    (∀ (eff : Cmd → (Nat → Nat → Nat) → (Nat → Nat → Nat))
        (bufs : Nat → Nat → Nat), ∃ bm,
      bufsAtDispatch eff i (frameCommands passes c) bufs = some bm ∧
      ∀ e, bm i e = 0) ∧
    (∀ j, ((passes.getD j default).isAtomic &&
        (passes.getD j default).hasStorage) = false →
      Cmd.clearBuf j ∉ frameCommands passes c) :=
  ⟨fun eff bufs => c9_core passes i c hi hc ha hs eff bufs,
   fun j h => c9_no_clear passes j c h⟩

theorem c9_atomic_autoclear_witness :
    (0 < [atomicA, plainB].length ∧
      (([atomicA, plainB].getD 0 default)).type = PassType.compute ∧
      (([atomicA, plainB].getD 0 default)).isAtomic = true ∧
      (([atomicA, plainB].getD 0 default)).hasStorage = true) ∧
    ((∀ (eff : Cmd → (Nat → Nat → Nat) → (Nat → Nat → Nat))
        (bufs : Nat → Nat → Nat), ∃ bm,
      bufsAtDispatch eff 0 (frameCommands [atomicA, plainB] 5) bufs = some bm ∧
      ∀ e, bm 0 e = 0) ∧
    (∀ j, ((([atomicA, plainB].getD j default)).isAtomic &&
        (([atomicA, plainB].getD j default)).hasStorage) = false →
      Cmd.clearBuf j ∉ frameCommands [atomicA, plainB] 5)) :=
  ⟨⟨by decide, by decide, by decide, by decide⟩,
    c9_atomic_autoclear [atomicA, plainB] 0 5
      (by decide) (by decide) (by decide) (by decide)⟩

theorem c1_write_slot_alternates_witness :
    (0 < [fragA].length ∧ (([fragA].getD 0 default)).type = PassType.fragment) ∧
    (writeSlotAt [fragA] 4 0 = some (writeIdxOf (frameCounterAfter 4)) ∧
    writeSlotAt [fragA] 4 0 ≠ writeSlotAt [fragA] (4 + 1) 0 ∧
    writeSlotAt [fragA] 4 0 = writeSlotAt [fragA] (4 + 2) 0) :=
  ⟨⟨by decide, by decide⟩,
    c1_write_slot_alternates [fragA] 4 0 (by decide) (by decide)⟩

/-- JS `String.prototype.includes`: `sub` occurs in `body` as a contiguous
substring (at any position, no word-boundary requirement). -/
def strIncludes (body sub : String) : Bool :=
  (List.range (body.data.length + 1)).any
    (fun k => decide ((body.data.drop k).take sub.data.length = sub.data))

/-- An identifier character (for the whole-word notion of the spec). -/
def isWordChar (ch : Char) : Bool := ch.isAlphanum || ch = '_'

/-- Modelled from the spec (P1): `ident` occurs in `body` as a whole-word
match, i.e. some substring occurrence is flanked on neither side by an
identifier character.  This follows the claim's wording and exists only
to compare the scanner against it; the source itself never implements a
word-boundary check. -/
def specWholeWordOccurs (body ident : String) : Bool :=
  (List.range (body.data.length + 1)).any (fun k =>
    decide ((body.data.drop k).take ident.data.length = ident.data) &&
    (decide (k = 0) || !isWordChar (body.data.getD (k - 1) ' ')) &&
    !isWordChar (body.data.getD (k + ident.data.length) ' '))

/-- The identifiers `TinyShadeBake.assembleShader` emits declarations for,
in order: the global textures whose name passes `body.includes(name)`,
`samp` if `body.includes("samp")`, then for every pass (main excluded):
`outTex` for the pass itself when present, else the pass name, and for
fragment passes additionally `prev_<name>` — every test being the JS
substring `includes`.  The uniform declaration `u` is unconditional in
the source (it is not scanned), so it is not part of this list. -/
def assembleShaderIds (gts : List String) (passes : List Pass)
    (cur : Option Nat) (body : String) : List String :=
  gts.filter (fun n => strIncludes body n) ++
  (if strIncludes body "samp" then ["samp"] else []) ++
  ((List.range passes.length).flatMap (fun i =>
    match (passes.getD i default).type with
    | PassType.compute =>
        if cur == some i && strIncludes body "outTex" then ["outTex"]
        else if strIncludes body (passes.getD i default).name then
          [(passes.getD i default).name]
        else []
    | PassType.fragment =>
        (if strIncludes body (passes.getD i default).name then
          [(passes.getD i default).name]
         else []) ++
        (if strIncludes body ("prev_" ++ (passes.getD i default).name) then
          ["prev_" ++ (passes.getD i default).name]
         else [])))

/-- All identifiers the scanner could possibly emit for the passes of a
graph (superset of any scan result). -/
def candidateIds (passes : List Pass) : List String :=
  (List.range passes.length).flatMap (fun i =>
    match (passes.getD i default).type with
    | PassType.compute => ["outTex", (passes.getD i default).name]
    | PassType.fragment =>
        [(passes.getD i default).name,
         "prev_" ++ (passes.getD i default).name])

theorem flatMap_sublist {α β : Type} (l : List α) (f g : α → List β)
    (h : ∀ a ∈ l, (f a).Sublist (g a)) :
    (l.flatMap f).Sublist (l.flatMap g) := by
  induction l with
  | nil => simp
  | cons a rest ih =>
      rw [List.flatMap_cons, List.flatMap_cons]
      exact List.Sublist.append (h a (by simp))
        (ih (fun x hx => h x (by simp [hx])))

theorem scanner_sublist_candidates (gts : List String) (passes : List Pass)
    (cur : Option Nat) (body : String) :
    (assembleShaderIds gts passes cur body).Sublist
      (gts ++ ["samp"] ++ candidateIds passes) := by
  rw [assembleShaderIds, candidateIds]
  refine List.Sublist.append (List.Sublist.append ?_ ?_) ?_
  · exact List.filter_sublist _
  · split
    · exact List.Sublist.refl _
    · exact List.nil_sublist _
  · refine flatMap_sublist _ _ _ (fun i _ => ?_)
    cases htype : (passes.getD i default).type
    · simp only []
      split
      · exact List.Sublist.cons₂ _ (List.nil_sublist _)
      · split
        · exact List.Sublist.cons _ (List.Sublist.refl _)
        · exact List.nil_sublist _
    · simp only []
      split <;> split
      · exact List.Sublist.refl _
      · exact List.Sublist.cons₂ _ (List.nil_sublist _)
      · exact List.Sublist.cons _ (List.Sublist.refl _)
      · exact List.nil_sublist _

/-- C4 (amended): every identifier the bake-time scanner emits occurs in
the stage body as a contiguous SUBSTRING (JS `includes`), not necessarily
as a whole-word match; an identifier that does not occur even as a
substring receives no entry (minimality); and the emitted list has no
duplicates provided the graph's candidate identifiers are distinct. -/
theorem c4_scanner_substring_sound (gts : List String) (passes : List Pass)
    (cur : Option Nat) (body : String) :
    (∀ s ∈ assembleShaderIds gts passes cur body,
      strIncludes body s = true) ∧
    (∀ nm, strIncludes body nm = false →
      nm ∉ assembleShaderIds gts passes cur body) ∧
    ((gts ++ ["samp"] ++ candidateIds passes).Nodup →
      (assembleShaderIds gts passes cur body).Nodup) := by
  have hsound : ∀ s ∈ assembleShaderIds gts passes cur body,
      strIncludes body s = true := by
    intro s hs
    rw [assembleShaderIds] at hs
    rcases List.mem_append.mp hs with hs | hs
    · rcases List.mem_append.mp hs with hs | hs
      · exact (List.mem_filter.mp hs).2
      · split at hs
        · next hcond =>
            rw [List.mem_singleton.mp hs]
            exact hcond
        · exact absurd hs (by simp)
    · obtain ⟨i, _, hmem⟩ := List.mem_flatMap.mp hs
      cases htype : (passes.getD i default).type <;>
        rw [htype] at hmem
      · simp only [] at hmem
        split at hmem
        · next hcond =>
            rw [List.mem_singleton.mp hmem]
            exact ((Bool.and_eq_true _ _).mp hcond).2
        · split at hmem
          · next hcond =>
              rw [List.mem_singleton.mp hmem]
              exact hcond
          · exact absurd hmem (by simp)
      · simp only [] at hmem
        rcases List.mem_append.mp hmem with hm | hm
        · split at hm
          · next hcond =>
              rw [List.mem_singleton.mp hm]
              exact hcond
          · exact absurd hm (by simp)
        · split at hm
          · next hcond =>
              rw [List.mem_singleton.mp hm]
              exact hcond
          · exact absurd hm (by simp)
  refine ⟨hsound, ?_, ?_⟩
  · intro nm hfalse hmem
    rw [hsound nm hmem] at hfalse
    exact absurd hfalse (by simp)
  · intro hnd
    exact List.Nodup.sublist (scanner_sublist_candidates gts passes cur body) hnd

/-- C4 counterexample: with one fragment stage `a` and stage body `"abc"`,
the scanner emits an entry for `a` — `"abc".includes("a")` is true — even
though `a` has no whole-word occurrence in `"abc"` (its only occurrence
is followed by the identifier character `b`). -/
theorem c4_counterexample :
    assembleShaderIds [] [fragA] none "abc" = ["a"] ∧
    specWholeWordOccurs "abc" "a" = false := by decide

theorem c4_scanner_substring_sound_witness :
    ((([] : List String) ++ ["samp"] ++ candidateIds [fragA]).Nodup) ∧
    (assembleShaderIds [] [fragA] none "abc").Nodup :=
  ⟨by decide,
    (c4_scanner_substring_sound [] [fragA] none "abc").2.2 (by decide)⟩

/-- Shape of a value passed to `UniformLayout.addUniform`: a plain number,
an array of length 2, 3 or 4, or anything else (`inferType` throws for
those); a function value is sampled once, so only its result shape
matters. -/
inductive UShape where
  | scalar : UShape
  | vec2 : UShape
  | vec3 : UShape
  | vec4 : UShape
  | unsupported : UShape
deriving DecidableEq, Repr

/-- `UniformLayout.inferType`: WGSL type name, byte size and alignment per
value shape (`vec3f` is 12 bytes with 16-byte alignment). -/
def inferType : UShape → Except String (String × Nat × Nat)
  | UShape.scalar => Except.ok ("f32", 4, 4)
  | UShape.vec2 => Except.ok ("vec2f", 8, 8)
  | UShape.vec3 => Except.ok ("vec3f", 12, 16)
  | UShape.vec4 => Except.ok ("vec4f", 16, 16)
  | UShape.unsupported => Except.error "Unsupported uniform value type"

/-- One registered uniform entry (`UniformEntry` of `UniformLayout.ts`,
minus the runtime value). -/
structure ULEntry where
  name : String
  type : String
  size : Nat
  align : Nat
  offset : Nat
deriving DecidableEq, Repr

/-- The mutable state of a `UniformLayout`: registered entries, the
`isBuilt` latch, the running `_currentOffset`, the byte length of the
baked `ArrayBuffer` once built, and the frame counter `update` bumps. -/
structure ULState where
  entries : List ULEntry
  isBuilt : Bool
  currentOffset : Nat
  builtSize : Option Nat
  frameCount : Nat
deriving DecidableEq, Repr

/-- `Math.ceil(n / k) * k` (for natural `n` and positive `k`): the
round-up-to-multiple used for entry offsets and the final buffer size. -/
def ceilMul (n k : Nat) : Nat := ((n + k - 1) / k) * k

/-- `UniformLayout.addUniform`: throws if the layout is already built
(before touching any state), otherwise aligns `_currentOffset` up to the
entry's alignment, appends the entry at that offset and advances the
offset by the entry's size. -/
def addUniform (nm : String) (shape : UShape) (st : ULState) :
    Except String ULState :=
  if st.isBuilt then Except.error "Cannot add uniforms after build()"
  else
    match inferType shape with
    | Except.error e => Except.error e
    | Except.ok (t, size, align) =>
        let off := ceilMul st.currentOffset align
        Except.ok { st with
          entries := st.entries ++ [⟨nm, t, size, align, off⟩]
          currentOffset := off + size }

/-- `UniformLayout.build`: a no-op when already built, otherwise bakes the
buffer whose byte length is `_currentOffset` rounded up to a multiple of
16, and sets the `isBuilt` latch. -/
def build (st : ULState) : ULState :=
  if st.isBuilt then st
  else { st with
    isBuilt := true
    builtSize := some (ceilMul st.currentOffset 16) }

/-- The `byteSize` getter: builds implicitly on first access, then returns
`this.buffer.byteLength`. -/
def byteSize (st : ULState) : Nat × ULState :=
  ((build st).builtSize.getD 0, build st)

/-- The `float32Array` getter: builds implicitly, then returns the float
view (modelled by its element count, `byteLength / 4`). -/
def float32ArrayLen (st : ULState) : Nat × ULState :=
  ((build st).builtSize.getD 0 / 4, build st)

/-- `UniformLayout.update`: builds implicitly, bumps the frame counter and
rewrites buffer values — it never touches `entries` or the baked size. -/
def update (st : ULState) : ULState :=
  { build st with frameCount := (build st).frameCount + 1 }

/-- A sequence of `addUniform` calls; the first thrown error aborts. -/
def addAll : List (String × UShape) → ULState → Except String ULState
  | [], st => Except.ok st
  | (nm, sh) :: rest, st =>
      match addUniform nm sh st with
      | Except.error e => Except.error e
      | Except.ok st2 => addAll rest st2

/-- A fresh layout before the constructor registers anything. -/
def emptyUL : ULState := ⟨[], false, 0, none, 0⟩

/-- The `UniformLayout` constructor: pre-registers `resolution` (a
3-element array), `time`, `sceneId`, `progress` and `flags`. -/
def initUL : Except String ULState :=
  addAll [("resolution", UShape.vec3), ("time", UShape.scalar),
    ("sceneId", UShape.scalar), ("progress", UShape.scalar),
    ("flags", UShape.scalar)] emptyUL

theorem ceilMul_mod (n k : Nat) : ceilMul n k % k = 0 := by
  rw [ceilMul]
  exact Nat.mul_mod_left _ _

theorem addUniform_inv (nm : String) (sh : UShape) (st st2 : ULState)
    (hb : st.isBuilt = false)
    (hinv : ∀ e ∈ st.entries, 0 < e.align ∧ e.offset % e.align = 0)
    (h : addUniform nm sh st = Except.ok st2) :
    st2.isBuilt = false ∧ st2.builtSize = st.builtSize ∧
      ∀ e ∈ st2.entries, 0 < e.align ∧ e.offset % e.align = 0 := by
  rw [addUniform, if_neg (by simp [hb])] at h
  cases sh <;> simp only [inferType] at h
  case unsupported => exact absurd h (by simp)
  all_goals
    simp only [Except.ok.injEq] at h
    subst h
    refine ⟨hb, rfl, ?_⟩
    intro e he
    rcases List.mem_append.mp he with he | he
    · exact hinv e he
    · rw [List.mem_singleton.mp he]
      exact ⟨by norm_num, ceilMul_mod _ _⟩

theorem addAll_inv (us : List (String × UShape)) (st st2 : ULState)
    (hb : st.isBuilt = false)
    (hinv : ∀ e ∈ st.entries, 0 < e.align ∧ e.offset % e.align = 0)
    (h : addAll us st = Except.ok st2) :
    st2.isBuilt = false ∧
      ∀ e ∈ st2.entries, 0 < e.align ∧ e.offset % e.align = 0 := by
  induction us generalizing st with
  | nil =>
      rw [addAll] at h
      simp only [Except.ok.injEq] at h
      subst h
      exact ⟨hb, hinv⟩
  | cons u rest ih =>
      rw [addAll] at h
      cases hstep : addUniform u.1 u.2 st with
      | error e => rw [hstep] at h; exact absurd h (by simp)
      | ok stMid =>
          rw [hstep] at h
          obtain ⟨h1, _, h3⟩ := addUniform_inv u.1 u.2 st stMid hb hinv hstep
          exact ih stMid h1 h3 h

/-- C8: after any sequence of successful `addUniform` calls on an unbuilt
layout with aligned entries, every entry's offset is a multiple of its
alignment, the serialized buffer length is a multiple of 16 bytes, and
the per-shape (type, size, alignment) triples are scalar (f32,4,4),
2-vector (vec2f,8,8), 3-vector (vec3f,12,16), 4-vector (vec4f,16,16). -/
theorem c8_uniform_alignment (us : List (String × UShape)) (st st2 : ULState)
    (hb : st.isBuilt = false)
    (hinv : ∀ e ∈ st.entries, 0 < e.align ∧ e.offset % e.align = 0)
    (h : addAll us st = Except.ok st2) :
    (∀ e ∈ st2.entries, e.offset % e.align = 0) ∧
    (byteSize st2).1 % 16 = 0 ∧
    inferType UShape.scalar = Except.ok ("f32", 4, 4) ∧
    inferType UShape.vec2 = Except.ok ("vec2f", 8, 8) ∧
    inferType UShape.vec3 = Except.ok ("vec3f", 12, 16) ∧
    inferType UShape.vec4 = Except.ok ("vec4f", 16, 16) := by
  obtain ⟨hb2, hinv2⟩ := addAll_inv us st st2 hb hinv h
  refine ⟨fun e he => (hinv2 e he).2, ?_, rfl, rfl, rfl, rfl⟩
  show (build st2).builtSize.getD 0 % 16 = 0
  rw [build, if_neg (by simp [hb2])]
  simp only [Option.getD_some]
  exact ceilMul_mod _ _

/-- A mixed scalar/vec2/vec3/vec4 registration sequence and the layout
state it produces (offsets 0, 8, 16, 32; final offset 48). -/
def uniformsMixed : List (String × UShape) :=
  [("speed", UShape.scalar), ("dir", UShape.vec2),
   ("col", UShape.vec3), ("rot", UShape.vec4)]

def ulMixed : ULState :=
  ⟨[⟨"speed", "f32", 4, 4, 0⟩, ⟨"dir", "vec2f", 8, 8, 8⟩,
    ⟨"col", "vec3f", 12, 16, 16⟩, ⟨"rot", "vec4f", 16, 16, 32⟩],
   false, 48, none, 0⟩

theorem c8_uniform_alignment_witness :
    (emptyUL.isBuilt = false ∧
      (∀ e ∈ emptyUL.entries, 0 < e.align ∧ e.offset % e.align = 0) ∧
      addAll uniformsMixed emptyUL = Except.ok ulMixed) ∧
    ((∀ e ∈ ulMixed.entries, e.offset % e.align = 0) ∧
      (byteSize ulMixed).1 % 16 = 0 ∧
      inferType UShape.scalar = Except.ok ("f32", 4, 4) ∧
      inferType UShape.vec2 = Except.ok ("vec2f", 8, 8) ∧
      inferType UShape.vec3 = Except.ok ("vec3f", 12, 16) ∧
      inferType UShape.vec4 = Except.ok ("vec4f", 16, 16)) :=
  ⟨⟨by decide, by decide, by rfl⟩,
    c8_uniform_alignment uniformsMixed emptyUL ulMixed
      (by decide) (by decide) (by rfl)⟩

/-- C10: accessing `byteSize`, `float32Array` or `update` builds the layout
implicitly; `build` is idempotent and never changes the registered
entries or the running offset; `update` leaves the entries and the
serialized size unchanged; and once built, every `addUniform` call
throws `Cannot add uniforms after build()` (the check precedes any
mutation, so the layout is unchanged) — hence every entry's offset is
fixed for the lifetime of the layout. -/
theorem c10_layout_frozen_after_build (st : ULState) (nm : String)
    (sh : UShape) :
    ((byteSize st).2.isBuilt = true) ∧
    ((float32ArrayLen st).2.isBuilt = true) ∧
    ((update st).isBuilt = true) ∧
    (build (build st) = build st) ∧
    ((build st).entries = st.entries) ∧
    ((build st).currentOffset = st.currentOffset) ∧
    ((update st).entries = st.entries) ∧
    ((byteSize (update st)).1 = (byteSize st).1) ∧
    (st.isBuilt = true →
      addUniform nm sh st = Except.error "Cannot add uniforms after build()" ∧
      build st = st) := by
  cases hb : st.isBuilt <;>
    simp [byteSize, float32ArrayLen, update, build, addUniform, hb]

theorem c10_layout_frozen_after_build_witness :
    ((build emptyUL).isBuilt = true) ∧
    (addUniform "x" UShape.scalar (build emptyUL) =
      Except.error "Cannot add uniforms after build()" ∧
      build (build emptyUL) = build emptyUL) :=
  ⟨by decide,
    (c10_layout_frozen_after_build (build emptyUL) "x"
      UShape.scalar).2.2.2.2.2.2.2.2 (by decide)⟩
